import Mathlib

/-!
Shallow embedding of the fmPromise call-correlation and result-normalization
layer (src/src/index.ts, src/fm-promise.js, src/unnamed/part_003), together
with proofs about the call registry, host-handle acquisition, dispatch
envelope construction, result normalization, data-API envelope validation,
record flattening and tabular decoding.
-/

namespace FmPromise

/-! ## JavaScript object model

A JavaScript object is embedded as an association list of key/value pairs in
property-insertion order.  `objGet` is property lookup, `objSet` is property
assignment (replacing the value in place when the key exists, appending
otherwise), `objRemove` is the `delete` operator. -/

def objGet {α β : Type} [DecidableEq α] : List (α × β) → α → Option β
  | [], _ => none
  | (k, v) :: rest, a => if k = a then some v else objGet rest a

def objSet {α β : Type} [DecidableEq α] : List (α × β) → α → β → List (α × β)
  | [], a, b => [(a, b)]
  | (k, v) :: rest, a, b => if k = a then (a, b) :: rest else (k, v) :: objSet rest a b

def objRemove {α β : Type} [DecidableEq α] : List (α × β) → α → List (α × β)
  | [], _ => []
  | (k, v) :: rest, a => if k = a then objRemove rest a else (k, v) :: objRemove rest a

/-- JS `String.prototype.startsWith`, over the character data (evaluable by
the kernel, unlike `String.startsWith`). -/
def jsStartsWith (s pfx : String) : Bool :=
  pfx.data.isPrefixOf s.data

/-- Core of JS `String.prototype.split` for a separator: scan left to right,
cutting at each non-overlapping occurrence of the separator.  The first
argument is structural fuel (every step consumes at least one character, so
the length of the scanned text suffices); the fuel-exhausted case is
unreachable from `jsSplit`. -/
def splitOnCore (sep : List Char) : Nat → List Char → List Char → List (List Char)
  | _, [], acc => [acc.reverse]
  | 0, l, acc => [acc.reverse ++ l]
  | fuel + 1, c :: rest, acc =>
    if sep.isPrefixOf (c :: rest) && !sep.isEmpty then
      acc.reverse :: splitOnCore sep fuel (rest.drop (sep.length - 1)) []
    else splitOnCore sep fuel rest (c :: acc)

/-- JS `String.prototype.split` with a string separator. -/
def jsSplit (s sep : String) : List String :=
  (splitOnCore sep.data s.data.length s.data []).map String.mk

/-! ## Call registry

`callbacksById` maps a numeric promise id to its `{resolve, reject}` pair.
Continuations are abstract tokens (`σ` for resolve, `φ` for reject); an
`Invocation` records one continuation actually being invoked with its
argument, so "invokes exactly the success continuation, exactly once" is the
statement that the invocation list produced by a completion is a one-element
list. -/

structure PendingCall (σ φ : Type) where
  onSuccess : σ
  onFailure : φ
  deriving DecidableEq, Repr

abbrev Registry (σ φ : Type) := List (Nat × PendingCall σ φ)

inductive Invocation (σ φ ρ ε : Type) where
  | success (k : σ) (r : ρ)
  | failure (k : φ) (e : ε)
  deriving DecidableEq, Repr

/-- The error class thrown to callers: `FMPromiseError {message, code}` with
`message` defaulting to the literal used by the constructor and `code`
optional (a string or a number). -/
structure FMPromiseError where
  message : String
  code : Option (String ⊕ Int)
  deriving DecidableEq, Repr

/-- The argument object of the `FMPromiseError` constructor; the constructor
defaults a missing `message` property. -/
structure FMErrObj where
  message : Option String
  code : Option (String ⊕ Int)
  deriving DecidableEq, Repr

def mkFMPromiseError (o : FMErrObj) : FMPromiseError :=
  { message := o.message.getD "Unknown error", code := o.code }

/-- `_resolve(promiseId, result)` from src/src/index.ts: if an entry is
registered for the id, invoke its resolve continuation and delete the entry;
otherwise do nothing. -/
def resolveCall {σ φ ρ ε : Type} (reg : Registry σ φ) (promiseId : Nat) (result : ρ) :
    Registry σ φ × List (Invocation σ φ ρ ε) :=
  match objGet reg promiseId with
  | some cb => (objRemove reg promiseId, [Invocation.success cb.onSuccess result])
  | none => (reg, [])

/-- `_reject(promiseId, errorString)` from src/src/index.ts: if an entry is
registered, parse the error string as JSON (falling back to
`{message: errorString}`), invoke the reject continuation with the resulting
`FMPromiseError`, and delete the entry; otherwise do nothing.  `jsonParse`
stands for the host `JSON.parse`, returning `none` where it would throw. -/
def rejectCall {σ φ ρ : Type} (jsonParse : String → Option FMErrObj)
    (reg : Registry σ φ) (promiseId : Nat) (errorString : String) :
    Registry σ φ × List (Invocation σ φ ρ FMPromiseError) :=
  match objGet reg promiseId with
  | some cb =>
    let errorObj := match jsonParse errorString with
      | some o => o
      | none => { message := some errorString, code := none }
    (objRemove reg promiseId, [Invocation.failure cb.onFailure (mkFMPromiseError errorObj)])
  | none => (reg, [])

/-- A JavaScript runtime error raised by the legacy implementation. -/
inductive JsRuntimeError where
  | typeError
  deriving DecidableEq, Repr

/-- `_resolve(promiseId, result)` from src/fm-promise.js: it reads
`callbacksById[promiseId].resolve` without a guard, so an unknown id raises a
TypeError; on a registered id it invokes the continuation and returns the
result of `delete callbacksById[promiseId]` (always `true`). -/
def jsResolveCall {σ φ ρ ε : Type} (reg : Registry σ φ) (promiseId : Nat) (result : ρ) :
    Except JsRuntimeError (Registry σ φ × List (Invocation σ φ ρ ε) × Bool) :=
  match objGet reg promiseId with
  | some cb => Except.ok (objRemove reg promiseId, [Invocation.success cb.onSuccess result], true)
  | none => Except.error JsRuntimeError.typeError

/-- `_reject(promiseId, error)` from src/fm-promise.js: also unguarded. -/
def jsRejectCall {σ φ ρ ε : Type} (reg : Registry σ φ) (promiseId : Nat) (error : ε) :
    Except JsRuntimeError (Registry σ φ × List (Invocation σ φ ρ ε) × Bool) :=
  match objGet reg promiseId with
  | some cb => Except.ok (objRemove reg promiseId, [Invocation.failure cb.onFailure error], true)
  | none => Except.error JsRuntimeError.typeError

/-- Delivering a sequence of inbound success completions, in the order the
host chooses; returns the final registry and the concatenated invocations. -/
def processCompletions {σ φ ε : Type} {ρ : Type} (reg : Registry σ φ) :
    List (Nat × ρ) → Registry σ φ × List (Invocation σ φ ρ ε)
  | [] => (reg, [])
  | (promiseId, r) :: rest =>
    let step := resolveCall (ε := ε) reg promiseId r
    let next := processCompletions step.1 rest
    (next.1, step.2 ++ next.2)

/-! ## Host handle acquisition -/

/-- The rejection message of the polling acquisition in src/fm-promise.js. -/
def pollTimeoutMsg : String := "No window.FileMaker object was loaded after polling timeout."

/-- The timeout rejection of the `Promise.race` acquisition in
src/src/index.ts. -/
def hostUnavailableError : FMPromiseError :=
  { message := "FileMaker object not found within 5 seconds.", code := none }

/-- Polling acquisition from src/fm-promise.js: every 10 ms the interval
callback checks `window.FileMaker` (here `avail tick`); `triesLeft` starts at
100, is tested before being decremented, and the loop rejects on the tick
that finds it exhausted — so at most 101 ticks are ever examined. -/
def pollLoop (avail : Nat → Bool) : Nat → Nat → Except String Nat
  | 0, tick => if avail tick then Except.ok tick else Except.error pollTimeoutMsg
  | n + 1, tick => if avail tick then Except.ok tick else pollLoop avail n (tick + 1)

def fmProxyPoll (avail : Nat → Bool) : Except String Nat :=
  pollLoop avail 100 0

/-- `Promise.race` acquisition from src/src/index.ts: a property trap resolves
with the host object as soon as `window.FileMaker` is assigned (at tick `t`),
racing a 5000 ms timer that rejects with the host-unavailable error;
`none` means the assignment never happens. -/
def fmProxyRace {H : Type} (fmAssignment : Option (Nat × H)) : Except FMPromiseError H :=
  match fmAssignment with
  | some (t, fm) => if t < 5000 then Except.ok fm else Except.error hostUnavailableError
  | none => Except.error hostUnavailableError

/-- `performScript` begins with `const fm = await fmProxy`; a rejected proxy
rejects the call with the same error, before any dispatch happens. -/
def performScriptWithProxy {H ρ : Type} (proxy : Except FMPromiseError H)
    (run : H → Except FMPromiseError ρ) : Except FMPromiseError ρ :=
  match proxy with
  | Except.error e => Except.error e
  | Except.ok fm => run fm

/-! ## Dispatch: parameter serialization and the outbound envelope -/

/-- A JavaScript value passed as `scriptParameter`. -/
inductive JsParam where
  | nullV
  | undefinedV
  | boolV (b : Bool)
  | numV (n : Int)
  | strV (s : String)
  | objV (fields : List (String × JsParam))

/-- JavaScript truthiness of a `JsParam`. -/
def truthy : JsParam → Bool
  | JsParam.nullV => false
  | JsParam.undefinedV => false
  | JsParam.boolV b => b
  | JsParam.numV n => n != 0
  | JsParam.strV s => s != ""
  | JsParam.objV _ => true

/-- `typeof scriptParameter === 'string'`. -/
def isString : JsParam → Bool
  | JsParam.strV _ => true
  | _ => false

/-- JavaScript string coercion, as used by `+` concatenation. -/
def jsToString : JsParam → String
  | JsParam.nullV => "null"
  | JsParam.undefinedV => "undefined"
  | JsParam.boolV b => if b then "true" else "false"
  | JsParam.numV n => toString n
  | JsParam.strV s => s
  | JsParam.objV _ => "[object Object]"

/-- `PerformScriptOptions` from src/src/index.ts; a missing optional property
is embedded as its falsy default. -/
structure PerformScriptOptions where
  alwaysReturnString : Bool := false
  runningScript : Nat := 0
  ignoreResult : Bool := false
  deriving DecidableEq, Repr

/-- The object serialized as the metadata line of the outbound envelope;
`ignoreResult` is `options?.ignoreResult || undefined`, so `false` and a
missing option are both omitted (`none`). -/
structure EnvelopeMeta where
  scriptName : String
  promiseId : Nat
  webViewerName : String
  ignoreResult : Option Bool
  deriving DecidableEq, Repr

/-- The host invocation performed by the dispatcher. -/
inductive HostCall where
  | perform (script : String) (comboParam : String)
  | performWithOption (script : String) (comboParam : String) (optionStr : String)
  deriving DecidableEq, Repr

def comboOf : HostCall → String
  | HostCall.perform _ c => c
  | HostCall.performWithOption _ c _ => c

structure DispatchResult (σ φ : Type) where
  lastPromiseId : Nat
  registry : Registry σ φ
  meta : EnvelopeMeta
  hostCall : HostCall

/-- The synchronous prefix of `performScript` from src/src/index.ts (after the
proxy await): generate a fresh id, JSON-stringify a truthy non-string
parameter, register the `{resolve, reject}` pair, build the metadata line and
`comboParam = meta + '\n' + (scriptParameter || '')`, and invoke the host
entry (`PerformScript`, or `PerformScriptWithOption` when a non-zero
`runningScript` option is given).  `stringifyMeta` and `stringifyParam` stand
for the host `JSON.stringify`. -/
def performScriptDispatch {σ φ : Type} (stringifyMeta : EnvelopeMeta → String)
    (stringifyParam : JsParam → String) (scriptName : String) (scriptParameter : JsParam)
    (options : PerformScriptOptions) (webViewerName : String)
    (lastPromiseId : Nat) (reg : Registry σ φ) (cont : PendingCall σ φ) :
    DispatchResult σ φ :=
  let promiseId := lastPromiseId + 1
  let param := if truthy scriptParameter && !isString scriptParameter
    then JsParam.strV (stringifyParam scriptParameter) else scriptParameter
  let reg' := objSet reg promiseId cont
  let meta : EnvelopeMeta :=
    { scriptName := scriptName, promiseId := promiseId,
      webViewerName := webViewerName,
      ignoreResult := if options.ignoreResult then some true else none }
  let comboParam := stringifyMeta meta ++ "\n" ++ (if truthy param then jsToString param else "")
  let hostCall := if options.runningScript = 0 then HostCall.perform "fmPromise" comboParam
    else HostCall.performWithOption "fmPromise" comboParam (toString options.runningScript)
  { lastPromiseId := promiseId, registry := reg', meta := meta, hostCall := hostCall }

/-! ## Result normalization -/

/-- The normalization step at the end of `performScript`: unless
`alwaysReturnString`, a string result whose first character is an opening
brace or bracket is given to `JSON.parse`; a parse failure is logged and the
raw string returned unchanged.  `jsonParse` stands for `JSON.parse`,
returning `none` where it would throw; `Sum.inl` is the raw string, `Sum.inr`
the parsed value. -/
def normalizeResult {J : Type} (jsonParse : String → Option J)
    (alwaysReturnString : Bool) (result : String) : String ⊕ J :=
  if !alwaysReturnString && (jsStartsWith result "\x7b" || jsStartsWith result "[") then
    match jsonParse result with
    | some v => Sum.inr v
    | none => Sum.inl result
  else Sum.inl result

/-! ## Structured data envelope -/

structure FMMessage where
  code : String
  message : String
  deriving DecidableEq, Repr

/-- The decoded data-API result before validation: `messages` may be missing
(`none`) or empty; a falsy result altogether is `none` at the outer level. -/
structure DataAPIResultRaw (τ : Type) where
  messages : Option (List FMMessage)
  response : τ

def emptyDataAPIError : FMPromiseError :=
  { message := "Empty data API response", code := some (Sum.inr (-1)) }

/-- The validation prefix of `executeFileMakerDataAPI` from src/src/index.ts:
`if (!result || !result.messages || !result.messages.length) throw` the
empty-response error; `if (result.messages[0].code !== '0') throw` an
`FMPromiseError` carrying the first message; otherwise succeed with the
result. -/
def executeFileMakerDataAPICheck {τ : Type} (result : Option (DataAPIResultRaw τ)) :
    Except FMPromiseError (DataAPIResultRaw τ) :=
  match result with
  | none => Except.error emptyDataAPIError
  | some r =>
    match r.messages with
    | none => Except.error emptyDataAPIError
    | some [] => Except.error emptyDataAPIError
    | some (m :: _) =>
      if m.code ≠ "0" then
        Except.error { message := m.message, code := some (Sum.inl m.code) }
      else Except.ok r

/-! ## Record flattening (`toRecords`) -/

/-- A FileMaker field value: string or number. -/
inductive FieldValue where
  | str (s : String)
  | num (n : Int)
  deriving DecidableEq, Repr

abbrev FieldMap := List (String × FieldValue)

/-- Key cleanup used on portal rows: strip the `portalName::` qualifier when
present. -/
def stripKey (portalName : String) (k : String) : String :=
  let pfx := portalName ++ "::"
  if jsStartsWith k pfx then String.mk (k.data.drop pfx.data.length) else k

/-- A processed portal row: enumerable fields plus the identity properties,
which `Object.defineProperties` makes non-enumerable. -/
structure CleanRow where
  fields : FieldMap
  recordId : Option FieldValue
  modId : Option FieldValue
  deriving DecidableEq, Repr

/-- `_processPortalRow` from src/src/index.ts: skip raw `recordId`/`modId`
keys, strip the `portalName::` qualifier from the remaining keys, then
redefine `recordId`/`modId` as non-enumerable properties holding the raw
values (so those names never remain among the enumerable fields, even if a
stripped key produced them). -/
def _processPortalRow (portalRow : FieldMap) (portalName : String) : CleanRow :=
  let loopFields := portalRow.foldl (fun acc kv =>
    if kv.1 = "recordId" ∨ kv.1 = "modId" then acc
    else objSet acc (stripKey portalName kv.1) kv.2) ([] : FieldMap)
  { fields := loopFields.filter (fun kv => kv.1 != "recordId" && kv.1 != "modId")
    recordId := objGet portalRow "recordId"
    modId := objGet portalRow "modId" }

/-- A value of a flattened record: a plain field or a portal (list of cleaned
rows). -/
inductive RecValue where
  | field (v : FieldValue)
  | portal (rows : List CleanRow)
  deriving DecidableEq, Repr

structure RawDataRecord where
  fieldData : FieldMap
  portalData : Option (List (String × List FieldMap))
  recordId : String
  modId : String
  deriving DecidableEq, Repr

/-- A flattened record: enumerable merged fields plus non-enumerable
`recordId`/`modId`. -/
structure DataRecord where
  fields : List (String × RecValue)
  recordId : String
  modId : String
  deriving DecidableEq, Repr

structure DataInfo where
  foundCount : Nat
  totalRecordCount : Nat
  deriving DecidableEq, Repr

structure ReadResponsePayload where
  dataInfo : Option DataInfo
  data : Option (List RawDataRecord)
  deriving DecidableEq, Repr

/-- The flattened array: records plus the non-enumerable aggregate counts. -/
structure RecordArray where
  records : List DataRecord
  foundCount : Nat
  totalRecordCount : Nat
  deriving DecidableEq, Repr

/-- `toRecords` from src/src/index.ts: for each raw record, clean every
portal row collection with `_processPortalRow`, spread
`{...o.fieldData, ...cleanedPortalData}` (later keys overwrite earlier ones
in place), and redefine `recordId`/`modId` as non-enumerable properties; then
attach `foundCount`/`totalRecordCount` from `dataInfo` (defaulting to 0) as
non-enumerable properties of the array. -/
def toRecords (resp : ReadResponsePayload) : RecordArray :=
  let responseData := resp.data.getD []
  let records := responseData.map (fun o =>
    let portalData := o.portalData.getD []
    let cleanedPortalData := portalData.map (fun pr =>
      (pr.1, RecValue.portal (pr.2.map (fun row => _processPortalRow row pr.1))))
    let spread := cleanedPortalData.foldl (fun acc kv => objSet acc kv.1 kv.2)
      (o.fieldData.map (fun kv => (kv.1, RecValue.field kv.2)))
    { fields := spread.filter (fun kv => kv.1 != "recordId" && kv.1 != "modId")
      recordId := o.recordId
      modId := o.modId })
  let dataInfo := resp.dataInfo.getD { foundCount := 0, totalRecordCount := 0 }
  { records := records, foundCount := dataInfo.foundCount,
    totalRecordCount := dataInfo.totalRecordCount }

/-! ## Tabular decoding (`executeSql`) -/

/-- The decode tail of `executeSql` from src/src/index.ts: empty or nullish
raw output yields `[]`; otherwise split on the row delimiter, then each row
on the column delimiter.  There is no error-marker check in this variant. -/
def executeSqlParse (rawData : Option String) (rowDelim colDelim : String) :
    List (List String) :=
  match rawData with
  | none => []
  | some s =>
    if s = "" then []
    else (jsSplit s rowDelim).map (fun r => jsSplit r colDelim)

/-- The decode tail of `executeSql` from src/unnamed/part_003: as above, but a
raw result starting with the host error marker is thrown as an error carrying
the raw text. -/
def executeSqlParseChecked (rawData : Option String) (rowDelim colDelim : String) :
    Except String (List (List String)) :=
  match rawData with
  | none => Except.ok []
  | some s =>
    if s = "" then Except.ok []
    else if jsStartsWith s "? ERROR" then Except.error s
    else Except.ok ((jsSplit s rowDelim).map (fun r => jsSplit r colDelim))

/-- Example read response from the specification: one record with field
`a = 1`, one portal `P` with one row, identity `recordId = "5"`,
`modId = "1"`, and counts 1 of 7. -/
def exampleReadResponse : ReadResponsePayload where
  dataInfo := some { foundCount := 1, totalRecordCount := 7 }
  data := some [{ fieldData := [("a", FieldValue.num 1)]
                  portalData := some [("P", [[("P::a", FieldValue.num 2)]])]
                  recordId := "5"
                  modId := "1" }]

/-- Example raw portal row: one qualified field key and a raw identity key. -/
def examplePortalRow : FieldMap :=
  [("P::a", FieldValue.num 2), ("recordId", FieldValue.str "9")]

/-! ## Association-list lemmas -/

theorem objGet_nil {α β : Type} [DecidableEq α] (a : α) :
    objGet ([] : List (α × β)) a = none := rfl

theorem objGet_objSet_self {α β : Type} [DecidableEq α] (l : List (α × β)) (a : α) (b : β) :
    objGet (objSet l a b) a = some b := by
  induction l with
  | nil => simp [objGet, objSet]
  | cons p rest ih =>
    obtain ⟨k, v⟩ := p
    by_cases h : k = a <;> simp [objGet, objSet, h, ih]

theorem objGet_objRemove_ne {α β : Type} [DecidableEq α] (l : List (α × β)) (a a' : α)
    (h : a' ≠ a) : objGet (objRemove l a) a' = objGet l a' := by
  induction l with
  | nil => rfl
  | cons p rest ih =>
    obtain ⟨k, v⟩ := p
    by_cases hk : k = a
    · subst hk
      simp [objGet, objRemove, Ne.symm h, ih]
    · by_cases hk' : k = a' <;> simp [objGet, objRemove, hk, hk', h, ih]

theorem objGet_objRemove_self {α β : Type} [DecidableEq α] (l : List (α × β)) (a : α) :
    objGet (objRemove l a) a = none := by
  induction l with
  | nil => rfl
  | cons p rest ih =>
    obtain ⟨k, v⟩ := p
    by_cases hk : k = a <;> simp [objGet, objRemove, hk, ih]

theorem map_fst_objRemove {α β : Type} [DecidableEq α] (l : List (α × β)) (a : α) :
    (objRemove l a).map Prod.fst = (l.map Prod.fst).filter (fun k => k != a) := by
  induction l with
  | nil => rfl
  | cons p rest ih =>
    obtain ⟨k, v⟩ := p
    by_cases hk : k = a
    · subst hk
      simp [objRemove, ih, List.filter, bne_self_eq_false]
    · have hb : (k != a) = true := bne_iff_ne.mpr hk
      simp [objRemove, hk, ih, List.filter, hb]

theorem objGet_eq_some_of_mem_keys {α β : Type} [DecidableEq α] (l : List (α × β)) (a : α)
    (h : a ∈ l.map Prod.fst) : ∃ b, objGet l a = some b := by
  induction l with
  | nil => simp at h
  | cons p rest ih =>
    obtain ⟨k, v⟩ := p
    by_cases hk : k = a
    · exact ⟨v, by simp [objGet, hk]⟩
    · simp [objGet, hk]
      apply ih
      simp only [List.map_cons, List.mem_cons] at h
      rcases h with h | h
      · exact absurd h.symm hk
      · exact h

theorem forall₂_imp_mem {α β : Type} {R S : α → β → Prop} :
    ∀ {l₁ : List α} {l₂ : List β}, List.Forall₂ R l₁ l₂ →
      (∀ a b, a ∈ l₁ → R a b → S a b) → List.Forall₂ S l₁ l₂ := by
  intro l₁ l₂ h
  induction h with
  | nil => exact fun _ => List.Forall₂.nil
  | cons hr _ ih =>
    intro himp
    exact List.Forall₂.cons (himp _ _ (List.mem_cons_self _ _) hr)
      (ih fun a b ha => himp a b (List.mem_cons_of_mem _ ha))

/-! ## Registry theorems -/

theorem resolveCall_of_registered {σ φ ρ ε : Type} (reg : Registry σ φ) (promiseId : Nat)
    (cb : PendingCall σ φ) (r : ρ) (h : objGet reg promiseId = some cb) :
    resolveCall (ε := ε) reg promiseId r
      = (objRemove reg promiseId, [Invocation.success cb.onSuccess r]) := by
  simp [resolveCall, h]

theorem resolveCall_of_unregistered {σ φ ρ ε : Type} (reg : Registry σ φ) (promiseId : Nat)
    (r : ρ) (h : objGet reg promiseId = none) :
    resolveCall (ε := ε) reg promiseId r = (reg, []) := by
  simp [resolveCall, h]

/-- Delivering completions for all registered ids, in any order the host
chooses, empties the registry and invokes, for each completion, exactly the
success continuation registered for its id with the result delivered for that
id. -/
theorem processCompletions_spec {σ φ ρ ε : Type} :
    ∀ (comps : List (Nat × ρ)) (reg : Registry σ φ),
      (reg.map Prod.fst).Nodup →
      List.Perm (comps.map Prod.fst) (reg.map Prod.fst) →
      (processCompletions (ε := ε) reg comps).1 = [] ∧
        List.Forall₂ (fun (p : Nat × ρ) inv => ∃ cb, objGet reg p.1 = some cb ∧
          inv = Invocation.success cb.onSuccess p.2) comps
          (processCompletions (ε := ε) reg comps).2 := by
  intro comps
  induction comps with
  | nil =>
    intro reg _ hperm
    have hkeys : reg.map Prod.fst = [] := hperm.symm.eq_nil
    have hreg : reg = [] := List.map_eq_nil_iff.mp hkeys
    subst hreg
    exact ⟨rfl, List.Forall₂.nil⟩
  | cons p rest ih =>
    intro reg hnd hperm
    obtain ⟨promiseId, r⟩ := p
    have hmem : promiseId ∈ reg.map Prod.fst :=
      hperm.subset (by simp)
    obtain ⟨cb, hcb⟩ := objGet_eq_some_of_mem_keys reg promiseId hmem
    have hstep : resolveCall (ε := ε) reg promiseId r
        = (objRemove reg promiseId, [Invocation.success cb.onSuccess r]) :=
      resolveCall_of_registered reg promiseId cb r hcb
    -- keys of the registry after removal
    have hkeys : (objRemove reg promiseId).map Prod.fst
        = (reg.map Prod.fst).erase promiseId := by
      rw [map_fst_objRemove, List.Nodup.erase_eq_filter hnd]
    have hnd' : ((objRemove reg promiseId).map Prod.fst).Nodup := by
      rw [hkeys]; exact hnd.erase promiseId
    have hperm' : List.Perm (rest.map Prod.fst) ((objRemove reg promiseId).map Prod.fst) := by
      rw [hkeys]
      have := hperm.erase promiseId
      simpa using this
    obtain ⟨hemp, hfa⟩ := ih (objRemove reg promiseId) hnd' hperm'
    have hndc : ((promiseId, r) :: rest).map (Prod.fst (β := ρ)) |>.Nodup :=
      hperm.symm.nodup hnd
    have hnotin : promiseId ∉ rest.map Prod.fst := by
      simp only [List.map_cons, List.nodup_cons] at hndc
      exact hndc.1
    refine ⟨?_, ?_⟩
    · show (processCompletions (ε := ε) reg ((promiseId, r) :: rest)).1 = []
      simp only [processCompletions, hstep]
      exact hemp
    · show List.Forall₂ _ ((promiseId, r) :: rest) _
      simp only [processCompletions, hstep, List.singleton_append]
      refine List.Forall₂.cons ⟨cb, hcb, rfl⟩ ?_
      refine forall₂_imp_mem hfa ?_
      rintro ⟨id', r'⟩ inv hmem' ⟨cb', hcb', hinv⟩
      refine ⟨cb', ?_, hinv⟩
      have hne : id' ≠ promiseId := by
        intro h
        exact hnotin (h ▸ (List.mem_map_of_mem Prod.fst hmem'))
      rw [← objGet_objRemove_ne reg promiseId id' hne]
      exact hcb'

/-- Helper for acquisition: when the host object is absent on every examined
tick, the poller rejects; the hypothesis only constrains the `n + 1` ticks the
loop can reach, so polling never continues past its bounded tries. -/
theorem pollLoop_error (avail : Nat → Bool) :
    ∀ (n tick : Nat), (∀ t, tick ≤ t → t ≤ tick + n → avail t = false) →
      pollLoop avail n tick = Except.error pollTimeoutMsg := by
  intro n
  induction n with
  | zero =>
    intro tick h
    simp [pollLoop, h tick le_rfl (by omega)]
  | succ n ih =>
    intro tick h
    have h0 : avail tick = false := h tick le_rfl (by omega)
    simp only [pollLoop, h0, Bool.false_eq_true, if_false]
    exact ih (tick + 1) (fun t ht1 ht2 => h t (by omega) (by omega))

/-- C1: for every call id with a registered pending entry, delivering a
success completion invokes exactly the registered success continuation,
exactly once, and removes the entry; and for N in-flight calls with distinct
ids whose completions arrive in any order (any permutation of the ids,
including reverse issuance order), each completion invokes the continuation
registered for its own id with the result delivered for that id, leaving the
registry empty. -/
theorem claimC1_registry_delivery {σ φ ρ ε : Type} (reg : Registry σ φ)
    (comps : List (Nat × ρ))
    (hnd : (reg.map Prod.fst).Nodup)
    (hperm : List.Perm (comps.map Prod.fst) (reg.map Prod.fst)) :
    (∀ (promiseId : Nat) (cb : PendingCall σ φ) (r : ρ),
        objGet reg promiseId = some cb →
          resolveCall (ε := ε) reg promiseId r
              = (objRemove reg promiseId, [Invocation.success cb.onSuccess r]) ∧
            objGet (resolveCall (ε := ε) reg promiseId r).1 promiseId = none) ∧
      (processCompletions (ε := ε) reg comps).1 = [] ∧
      List.Forall₂ (fun (p : Nat × ρ) inv => ∃ cb, objGet reg p.1 = some cb ∧
        inv = Invocation.success cb.onSuccess p.2) comps
        (processCompletions (ε := ε) reg comps).2 := by
  refine ⟨?_, (processCompletions_spec comps reg hnd hperm).1,
    (processCompletions_spec comps reg hnd hperm).2⟩
  intro promiseId cb r hcb
  have hres := resolveCall_of_registered (ε := ε) reg promiseId cb r hcb
  refine ⟨hres, ?_⟩
  rw [hres]
  exact objGet_objRemove_self reg promiseId

/-- C1 witness: two in-flight calls completed in reverse issuance order each
deliver their own result to their own continuation and empty the registry. -/
theorem claimC1_registry_delivery_witness :
    ((([(1, PendingCall.mk "s1" "f1"), (2, PendingCall.mk "s2" "f2")] :
        Registry String String).map Prod.fst).Nodup) ∧
      (processCompletions (ε := Unit)
          [(1, PendingCall.mk "s1" "f1"), (2, PendingCall.mk "s2" "f2")]
          [(2, "r2"), (1, "r1")]).1 = [] ∧
      (processCompletions (ε := Unit)
          [(1, PendingCall.mk "s1" "f1"), (2, PendingCall.mk "s2" "f2")]
          [(2, "r2"), (1, "r1")]).2
        = [Invocation.success "s2" "r2", Invocation.success "s1" "r1"] := by
  refine ⟨by decide, ?_, by decide⟩
  exact (claimC1_registry_delivery (ε := Unit)
    [(1, PendingCall.mk "s1" "f1"), (2, PendingCall.mk "s2" "f2")]
    [(2, "r2"), (1, "r1")] (by decide) (by decide)).2.1

/-- C2 counterexample: the claim says the inbound entry points never raise for
an unknown id, but in src/fm-promise.js delivering a success or failure
completion for an id with no pending entry throws a TypeError (it reads a
property of `undefined`) instead of being a no-op. -/
theorem claimC2_counterexample :
    jsResolveCall (σ := String) (φ := String) (ε := String) ([] : Registry String String) 1 "r"
        = Except.error JsRuntimeError.typeError ∧
      jsRejectCall (σ := String) (φ := String) (ρ := String) ([] : Registry String String) 1 "e"
        = Except.error JsRuntimeError.typeError :=
  ⟨rfl, rfl⟩

/-- C2 amended: in src/src/index.ts, invoking `_resolve` or `_reject` for a
call id with no pending entry is a no-op — the registry is unchanged, no
continuation is invoked, and no error is raised — but the operation returns
nothing rather than a found indicator; in the legacy src/fm-promise.js
implementation the same invocation instead throws a TypeError. -/
theorem claimC2_unknown_id_amended {σ φ ρ ε : Type} (jsonParse : String → Option FMErrObj)
    (reg : Registry σ φ) (promiseId : Nat) (r : ρ) (e : ε) (errorString : String)
    (h : objGet reg promiseId = none) :
    resolveCall (ε := ε) reg promiseId r = (reg, []) ∧
      rejectCall (ρ := ρ) jsonParse reg promiseId errorString = (reg, []) ∧
      jsResolveCall (ε := ε) reg promiseId r = Except.error JsRuntimeError.typeError ∧
      jsRejectCall (ρ := ρ) reg promiseId e = Except.error JsRuntimeError.typeError := by
  refine ⟨?_, ?_, ?_, ?_⟩ <;> simp [resolveCall, rejectCall, jsResolveCall, jsRejectCall, h]

/-- C2 witness: a concrete unknown id on an empty registry. -/
theorem claimC2_unknown_id_amended_witness :
    resolveCall (ε := Unit) ([] : Registry String String) 7 "r" = ([], []) ∧
      rejectCall (ρ := String) (fun _ => none) ([] : Registry String String) 7 "boom" = ([], []) ∧
      jsResolveCall (ε := Unit) ([] : Registry String String) 7 "r"
        = Except.error JsRuntimeError.typeError ∧
      jsRejectCall (ρ := String) ([] : Registry String String) 7 ()
        = Except.error JsRuntimeError.typeError :=
  claimC2_unknown_id_amended (fun _ => none) [] 7 "r" () "boom" rfl

/-- C3: if the host call surface never becomes available, both acquisition
strategies fail with their host-unavailable error after a bounded wait — the
poller rejects using only the availability of its at most 101 examined ticks,
and the race rejects when no assignment ever happens — and every
`performScript` call, whenever issued, then rejects with that same error
instead of staying pending. -/
theorem claimC3_host_unavailable {H ρ : Type} (avail : Nat → Bool)
    (h : ∀ t, t ≤ 100 → avail t = false) (run : H → Except FMPromiseError ρ) :
    fmProxyPoll avail = Except.error pollTimeoutMsg ∧
      fmProxyRace (H := H) none = Except.error hostUnavailableError ∧
      performScriptWithProxy (fmProxyRace (H := H) none) run
        = Except.error hostUnavailableError := by
  refine ⟨?_, rfl, rfl⟩
  exact pollLoop_error avail 100 0 (fun t _ ht => h t (by omega))

/-- C3 witness: a host that is never available. -/
theorem claimC3_host_unavailable_witness :
    fmProxyPoll (fun _ => false) = Except.error pollTimeoutMsg ∧
      fmProxyRace (H := Unit) none = Except.error hostUnavailableError ∧
      performScriptWithProxy (fmProxyRace (H := Unit) none) (fun _ => Except.ok "done")
        = Except.error hostUnavailableError :=
  claimC3_host_unavailable (fun _ => false) (fun _ _ => rfl) (fun _ => Except.ok "done")

theorem objGet_objSet_ne {α β : Type} [DecidableEq α] (l : List (α × β)) (a a' : α) (b : β)
    (h : a' ≠ a) : objGet (objSet l a b) a' = objGet l a' := by
  induction l with
  | nil => simp [objGet, objSet, Ne.symm h]
  | cons p rest ih =>
    obtain ⟨k, v⟩ := p
    by_cases hk : k = a
    · subst hk
      simp [objGet, objSet, Ne.symm h]
    · by_cases hk' : k = a' <;> simp [objGet, objSet, hk, hk', h, ih]

theorem mem_of_objGet_eq_some {α β : Type} [DecidableEq α] (l : List (α × β)) (a : α) (b : β)
    (h : objGet l a = some b) : (a, b) ∈ l := by
  induction l with
  | nil => simp [objGet] at h
  | cons p rest ih =>
    obtain ⟨k, v⟩ := p
    by_cases hk : k = a
    · subst hk
      simp [objGet] at h
      simp [h]
    · simp [objGet, hk] at h
      exact List.mem_cons_of_mem _ (ih h)

theorem objGet_foldl_objSet_not_mem {α β : Type} [DecidableEq α] :
    ∀ (l acc : List (α × β)) (a : α), a ∉ l.map Prod.fst →
      objGet (l.foldl (fun acc2 kv => objSet acc2 kv.1 kv.2) acc) a = objGet acc a := by
  intro l
  induction l with
  | nil => intro acc a _; rfl
  | cons kv rest ih =>
    intro acc a ha
    simp only [List.map_cons, List.mem_cons, not_or] at ha
    rw [List.foldl_cons, ih (objSet acc kv.1 kv.2) a ha.2]
    exact objGet_objSet_ne acc kv.1 a kv.2 ha.1

theorem objGet_foldl_objSet_mem {α β : Type} [DecidableEq α] :
    ∀ (l acc : List (α × β)) (a : α) (b : β), (l.map Prod.fst).Nodup → (a, b) ∈ l →
      objGet (l.foldl (fun acc2 kv => objSet acc2 kv.1 kv.2) acc) a = some b := by
  intro l
  induction l with
  | nil => intro acc a b _ hm; simp at hm
  | cons kv rest ih =>
    intro acc a b hnd hm
    simp only [List.map_cons, List.nodup_cons] at hnd
    rcases List.mem_cons.mp hm with he | hm2
    · have ha : a = kv.1 := by rw [← he]
      have hb : b = kv.2 := by rw [← he]
      subst ha hb
      rw [List.foldl_cons, objGet_foldl_objSet_not_mem rest _ _ hnd.1]
      exact objGet_objSet_self acc kv.1 kv.2
    · exact List.foldl_cons _ _ ▸ ih (objSet acc kv.1 kv.2) a b hnd.2 hm2

theorem objGet_map_value {α β γ : Type} [DecidableEq α] (g : β → γ) :
    ∀ (l : List (α × β)) (a : α),
      objGet (l.map (fun kv => (kv.1, g kv.2))) a = (objGet l a).map g := by
  intro l
  induction l with
  | nil => intro a; rfl
  | cons kv rest ih =>
    intro a
    by_cases hk : kv.1 = a <;> simp [objGet, hk, ih]

theorem objGet_filter_keys {α β : Type} [DecidableEq α] (q : α → Bool) :
    ∀ (l : List (α × β)) (a : α), q a = true →
      objGet (l.filter (fun kv => q kv.1)) a = objGet l a := by
  intro l
  induction l with
  | nil => intro a _; rfl
  | cons kv rest ih =>
    intro a hq
    by_cases hk : kv.1 = a
    · subst hk
      simp [List.filter_cons, hq, objGet]
    · cases hq2 : q kv.1 <;> simp [List.filter_cons, hq2, objGet, hk, ih a hq]

theorem not_mem_keys_filter {α β : Type} [DecidableEq α] (l : List (α × β)) (q : α → Bool)
    (a : α) (hq : q a = false) : a ∉ (l.filter (fun kv => q kv.1)).map Prod.fst := by
  intro hmem
  obtain ⟨kv, hkv, hfst⟩ := List.mem_map.mp hmem
  have := (List.mem_filter.mp hkv).2
  rw [hfst] at this
  simp [hq] at this

/-- The skip-or-set loop of `_processPortalRow` is the plain insertion fold of
the kept, stripped entries. -/
theorem foldl_if_objSet_eq (pn : String) :
    ∀ (l acc : FieldMap),
      l.foldl (fun acc2 kv => if kv.1 = "recordId" ∨ kv.1 = "modId" then acc2
          else objSet acc2 (stripKey pn kv.1) kv.2) acc
        = (l.filterMap (fun kv => if kv.1 = "recordId" ∨ kv.1 = "modId" then none
            else some (stripKey pn kv.1, kv.2))).foldl
              (fun acc2 kv => objSet acc2 kv.1 kv.2) acc := by
  intro l
  induction l with
  | nil => intro acc; rfl
  | cons kv rest ih =>
    intro acc
    by_cases h : kv.1 = "recordId" ∨ kv.1 = "modId" <;>
      simp [List.foldl_cons, List.filterMap_cons, h, ih]

theorem forall₂_map_self {α β : Type} (f : α → β) (R : α → β → Prop) :
    ∀ (l : List α), (∀ a, a ∈ l → R a (f a)) → List.Forall₂ R l (l.map f) := by
  intro l
  induction l with
  | nil => intro _; exact List.Forall₂.nil
  | cons a rest ih =>
    intro h
    exact List.Forall₂.cons (h a (List.mem_cons_self _ _))
      (ih fun b hb => h b (List.mem_cons_of_mem _ hb))

/-- C4 counterexample: the claim says a call with `ignoreResult` set does not
register a pending entry and resolves eagerly instead of awaiting an inbound
completion, but the dispatcher in src/src/index.ts registers the
`{resolve, reject}` pair for the fresh call id unconditionally — here a
concrete dispatch with `ignoreResult: true` leaves a pending entry for id 1
in the registry, while the flag is only forwarded in the envelope metadata. -/
theorem claimC4_counterexample :
    objGet (performScriptDispatch (σ := String) (φ := String) (fun _ => "M") (fun _ => "P")
          "myScript" JsParam.nullV { ignoreResult := true } "wv" 0 []
          (PendingCall.mk "res" "rej")).registry 1
        = some (PendingCall.mk "res" "rej") ∧
      (performScriptDispatch (σ := String) (φ := String) (fun _ => "M") (fun _ => "P")
          "myScript" JsParam.nullV { ignoreResult := true } "wv" 0 []
          (PendingCall.mk "res" "rej")).meta.ignoreResult = some true :=
  ⟨rfl, rfl⟩

/-- C4 amended: with `ignoreResult` set, `performScript` still registers a
pending entry for the fresh call id and awaits its inbound completion like
any other call; the only effect of the option is that `ignoreResult: true` is
included in the envelope metadata sent to the host (so the host-side script
can complete the call eagerly, before the calling context is destroyed), and
the registered continuation is then invoked by the ordinary inbound
completion path. -/
theorem claimC4_ignoreResult_amended {σ φ ρ ε : Type} (stringifyMeta : EnvelopeMeta → String)
    (stringifyParam : JsParam → String) (scriptName : String) (p : JsParam)
    (options : PerformScriptOptions) (wvn : String) (lastId : Nat) (reg : Registry σ φ)
    (cont : PendingCall σ φ) (r : ρ)
    (hopt : options.ignoreResult = true) :
    objGet (performScriptDispatch stringifyMeta stringifyParam scriptName p options wvn
          lastId reg cont).registry (lastId + 1) = some cont ∧
      (performScriptDispatch stringifyMeta stringifyParam scriptName p options wvn
          lastId reg cont).meta.ignoreResult = some true ∧
      resolveCall (ε := ε) (performScriptDispatch stringifyMeta stringifyParam scriptName p
          options wvn lastId reg cont).registry (lastId + 1) r
        = (objRemove (performScriptDispatch stringifyMeta stringifyParam scriptName p options
            wvn lastId reg cont).registry (lastId + 1),
          [Invocation.success cont.onSuccess r]) := by
  have h1 : objGet (performScriptDispatch stringifyMeta stringifyParam scriptName p options wvn
      lastId reg cont).registry (lastId + 1) = some cont :=
    objGet_objSet_self reg (lastId + 1) cont
  exact ⟨h1, by simp [performScriptDispatch, hopt],
    resolveCall_of_registered _ (lastId + 1) cont r h1⟩

/-- C4 amended witness: a concrete dispatch with the option set, whose pending
entry is then resolved by the inbound completion path. -/
theorem claimC4_ignoreResult_amended_witness :
    objGet (performScriptDispatch (σ := String) (φ := String) (fun _ => "M") (fun _ => "P")
          "s" JsParam.undefinedV { ignoreResult := true } "wv" 4 []
          (PendingCall.mk "res" "rej")).registry 5 = some (PendingCall.mk "res" "rej") ∧
      (performScriptDispatch (σ := String) (φ := String) (fun _ => "M") (fun _ => "P")
          "s" JsParam.undefinedV { ignoreResult := true } "wv" 4 []
          (PendingCall.mk "res" "rej")).meta.ignoreResult = some true ∧
      resolveCall (ε := Unit) (performScriptDispatch (σ := String) (φ := String) (fun _ => "M")
          (fun _ => "P") "s" JsParam.undefinedV { ignoreResult := true } "wv" 4 []
          (PendingCall.mk "res" "rej")).registry 5 "the result"
        = (objRemove (performScriptDispatch (σ := String) (φ := String) (fun _ => "M")
            (fun _ => "P") "s" JsParam.undefinedV { ignoreResult := true } "wv" 4 []
            (PendingCall.mk "res" "rej")).registry 5,
          [Invocation.success "res" "the result"]) :=
  claimC4_ignoreResult_amended (fun _ => "M") (fun _ => "P") "s" JsParam.undefinedV
    { ignoreResult := true } "wv" 4 [] (PendingCall.mk "res" "rej") "the result" rfl

/-- C5: without `alwaysReturnString`, a string result whose first character is
an opening brace or bracket goes through the JSON decoder and a failed decode
falls back to the original string without raising; a string starting
otherwise is returned as-is; and with `alwaysReturnString` the raw string is
returned for every decoder, so no decode is attempted. -/
theorem claimC5_result_normalization {J : Type} (jsonParse : String → Option J)
    (ars : Bool) (r : String) (v : J) :
    normalizeResult jsonParse true r = Sum.inl r ∧
      ((jsStartsWith r "\x7b" || jsStartsWith r "[") = false →
        normalizeResult jsonParse ars r = Sum.inl r) ∧
      ((jsStartsWith r "\x7b" || jsStartsWith r "[") = true → jsonParse r = none →
        normalizeResult jsonParse false r = Sum.inl r) ∧
      ((jsStartsWith r "\x7b" || jsStartsWith r "[") = true → jsonParse r = some v →
        normalizeResult jsonParse false r = Sum.inr v) := by
  refine ⟨by simp [normalizeResult], ?_, ?_, ?_⟩
  · intro h
    simp [normalizeResult, h]
  · intro h hp
    simp [normalizeResult, h, hp]
  · intro h hp
    simp [normalizeResult, h, hp]

/-- C5 witness: a failed decode of brace-initial text falls back to the raw
string, plain text passes through, and a successful decode is returned. -/
theorem claimC5_result_normalization_witness :
    normalizeResult (J := Unit) (fun _ => none) true "\x7bx:1" = Sum.inl "\x7bx:1" ∧
      normalizeResult (J := Unit) (fun _ => none) false "plain text" = Sum.inl "plain text" ∧
      normalizeResult (J := Unit) (fun _ => none) false "\x7bnot json"
        = Sum.inl "\x7bnot json" ∧
      normalizeResult (J := Bool) (fun _ => some true) false "[1]" = Sum.inr true :=
  ⟨(claimC5_result_normalization (fun _ => none) true "\x7bx:1" ()).1,
    (claimC5_result_normalization (fun _ => none) false "plain text" ()).2.1 (by decide),
    (claimC5_result_normalization (fun _ => none) false "\x7bnot json" ()).2.2.1
      (by decide) rfl,
    (claimC5_result_normalization (fun _ => some true) false "[1]" true).2.2.2
      (by decide) rfl⟩

/-- C6: the data-API wrapper rejects a falsy result, a result without a
`messages` field and a result with an empty message list with the
empty-response error; a first message whose code is not the success code "0"
is raised as a structured error carrying that code and text; and only a first
message with code "0" lets the call succeed with the response. -/
theorem claimC6_dataapi_validation {τ : Type} (resp : τ) (m : FMMessage) (ms : List FMMessage) :
    executeFileMakerDataAPICheck (τ := τ) none = Except.error emptyDataAPIError ∧
      executeFileMakerDataAPICheck (some { messages := none, response := resp })
        = Except.error emptyDataAPIError ∧
      executeFileMakerDataAPICheck (some { messages := some [], response := resp })
        = Except.error emptyDataAPIError ∧
      (m.code ≠ "0" →
        executeFileMakerDataAPICheck (some { messages := some (m :: ms), response := resp })
          = Except.error { message := m.message, code := some (Sum.inl m.code) }) ∧
      (m.code = "0" →
        executeFileMakerDataAPICheck (some { messages := some (m :: ms), response := resp })
          = Except.ok { messages := some (m :: ms), response := resp }) := by
  refine ⟨rfl, rfl, rfl, ?_, ?_⟩
  · intro h
    simp [executeFileMakerDataAPICheck, h]
  · intro h
    simp [executeFileMakerDataAPICheck, h]

/-- C6 witness: the spec examples — code "101" raises an application error
carrying that code, code "0" succeeds, and the empty response raises. -/
theorem claimC6_dataapi_validation_witness :
    executeFileMakerDataAPICheck (τ := Unit) none = Except.error emptyDataAPIError ∧
      executeFileMakerDataAPICheck
          (some { messages := some [FMMessage.mk "101" "No records"], response := () })
        = Except.error { message := "No records", code := some (Sum.inl "101") } ∧
      executeFileMakerDataAPICheck
          (some { messages := some [FMMessage.mk "0" "OK"], response := () })
        = Except.ok { messages := some [FMMessage.mk "0" "OK"], response := () } :=
  ⟨(claimC6_dataapi_validation () (FMMessage.mk "0" "OK") []).1,
    (claimC6_dataapi_validation () (FMMessage.mk "101" "No records") []).2.2.2.1 (by decide),
    (claimC6_dataapi_validation () (FMMessage.mk "0" "OK") []).2.2.2.2 rfl⟩

/-- C8: empty or nullish raw output decodes to the empty row sequence, and
non-empty raw output is split first on the row delimiter and then each row on
the column delimiter; in particular the delimited text of the spec example
decodes to its two two-column rows. -/
theorem claimC8_sql_decode (rowDelim colDelim s : String) (hs : s ≠ "") :
    executeSqlParse none rowDelim colDelim = [] ∧
      executeSqlParse (some "") rowDelim colDelim = [] ∧
      executeSqlParse (some s) rowDelim colDelim
        = (jsSplit s rowDelim).map (fun r => jsSplit r colDelim) ∧
      executeSqlParse (some "a|COL|b~ROW~c|COL|d") "~ROW~" "|COL|"
        = [["a", "b"], ["c", "d"]] := by
  refine ⟨rfl, rfl, by simp [executeSqlParse, hs], by decide⟩

/-- C8 witness: the spec example as the non-empty raw text. -/
theorem claimC8_sql_decode_witness :
    executeSqlParse none "~ROW~" "|COL|" = [] ∧
      executeSqlParse (some "") "~ROW~" "|COL|" = [] ∧
      executeSqlParse (some "a|COL|b~ROW~c|COL|d") "~ROW~" "|COL|"
        = [["a", "b"], ["c", "d"]] := by
  obtain ⟨h1, h2, _, h4⟩ :=
    claimC8_sql_decode "~ROW~" "|COL|" "a|COL|b~ROW~c|COL|d" (by decide)
  exact ⟨h1, h2, h4⟩

/-- C9 counterexample: the claim says `executeSql` raises on a raw result
beginning with the host error marker, but the variant in src/src/index.ts has
no such check — the marker text is returned decoded as one row with one
column. -/
theorem claimC9_counterexample :
    executeSqlParse (some "? ERROR: syntax") "~ROW~" "|COL|" = [["? ERROR: syntax"]] := by
  decide

/-- C9 amended: only the variant in src/unnamed/part_003 raises an error
carrying the raw text when the result begins with the "? ERROR" marker; the
variant in src/src/index.ts performs no marker check and returns the text
decoded as row/column data. -/
theorem claimC9_error_marker_amended (rowDelim colDelim s : String)
    (h : jsStartsWith s "? ERROR" = true) :
    executeSqlParseChecked (some s) rowDelim colDelim = Except.error s ∧
      executeSqlParse (some s) rowDelim colDelim
        = (jsSplit s rowDelim).map (fun r => jsSplit r colDelim) := by
  have hne : s ≠ "" := by
    intro he
    subst he
    exact absurd h (by decide)
  constructor
  · simp [executeSqlParseChecked, hne, h]
  · simp [executeSqlParse, hne]

/-- C9 amended witness: a concrete error-marker result. -/
theorem claimC9_error_marker_amended_witness :
    executeSqlParseChecked (some "? ERROR (8): no access") "~ROW~" "|COL|"
        = Except.error "? ERROR (8): no access" ∧
      executeSqlParse (some "? ERROR (8): no access") "~ROW~" "|COL|"
        = [["? ERROR (8): no access"]] := by
  obtain ⟨h1, h2⟩ :=
    claimC9_error_marker_amended "~ROW~" "|COL|" "? ERROR (8): no access" (by decide)
  exact ⟨h1, by rw [h2]; decide⟩

/-- C10: for each falsy non-string parameter (null, undefined, 0, false, the
empty string), the serialization step leaves the parameter untouched, the
dispatch result does not depend on the serializer at all, and the outbound
envelope is exactly the metadata line followed by a newline and the empty
parameter section — the host receives no encoding of 0 or false. -/
theorem claimC10_falsy_param {σ φ : Type} (stringifyMeta : EnvelopeMeta → String)
    (stringifyParam : JsParam → String) (scriptName wvn : String)
    (options : PerformScriptOptions) (lastId : Nat) (reg : Registry σ φ)
    (cont : PendingCall σ φ) (p : JsParam)
    (hp : p = JsParam.nullV ∨ p = JsParam.undefinedV ∨ p = JsParam.numV 0 ∨
      p = JsParam.boolV false ∨ p = JsParam.strV "") :
    (if truthy p && !isString p then JsParam.strV (stringifyParam p) else p) = p ∧
      comboOf (performScriptDispatch stringifyMeta stringifyParam scriptName p options wvn
          lastId reg cont).hostCall
        = stringifyMeta (performScriptDispatch stringifyMeta stringifyParam scriptName p
            options wvn lastId reg cont).meta ++ "\n" ∧
      (∀ stringifyParam2 : JsParam → String,
        performScriptDispatch stringifyMeta stringifyParam2 scriptName p options wvn lastId
            reg cont
          = performScriptDispatch stringifyMeta stringifyParam scriptName p options wvn lastId
              reg cont) := by
  have hfalsy : truthy p = false := by
    rcases hp with h | h | h | h | h <;> subst h <;> simp [truthy]
  refine ⟨by simp [hfalsy], ?_, ?_⟩
  · by_cases hrs : options.runningScript = 0 <;>
      simp [performScriptDispatch, comboOf, hfalsy, hrs]
  · intro stringifyParam2
    simp [performScriptDispatch, hfalsy]

/-- C10 witness: the parameter 0 yields the bare metadata line plus newline,
independently of the serializer. -/
theorem claimC10_falsy_param_witness :
    (if truthy (JsParam.numV 0) && !isString (JsParam.numV 0)
        then JsParam.strV "SERIALIZED" else JsParam.numV 0) = JsParam.numV 0 ∧
      comboOf (performScriptDispatch (σ := String) (φ := String) (fun _ => "METALINE")
          (fun _ => "SERIALIZED") "s" (JsParam.numV 0) {} "wv" 0 []
          (PendingCall.mk "res" "rej")).hostCall
        = "METALINE" ++ "\n" :=
  by
  obtain ⟨h1, h2, _⟩ := claimC10_falsy_param (σ := String) (φ := String) (fun _ => "METALINE")
    (fun _ => "SERIALIZED") "s" "wv" {} 0 [] (PendingCall.mk "res" "rej") (JsParam.numV 0)
    (Or.inr (Or.inr (Or.inl rfl)))
  exact ⟨h1, h2⟩

/-- C7: for a successful read response, `toRecords` maps each raw record to
an object merging its flat field map with its named portal collections
(portal names look up the cleaned rows, other keys look up the field data),
strips the `Name::` qualifier from each portal row key while excluding the
raw identity keys from the enumerable fields, attaches each row and record
identity (`recordId`/`modId`) as non-enumerable metadata, and attaches the
found count and total record count as non-enumerable metadata of the
resulting array. -/
theorem claimC7_toRecords_flattening (resp : ReadResponsePayload) :
    (toRecords resp).foundCount
        = (resp.dataInfo.getD { foundCount := 0, totalRecordCount := 0 }).foundCount ∧
      (toRecords resp).totalRecordCount
        = (resp.dataInfo.getD { foundCount := 0, totalRecordCount := 0 }).totalRecordCount ∧
      (∀ (row : FieldMap) (pn : String),
        (_processPortalRow row pn).recordId = objGet row "recordId" ∧
          (_processPortalRow row pn).modId = objGet row "modId" ∧
          "recordId" ∉ (_processPortalRow row pn).fields.map Prod.fst ∧
          "modId" ∉ (_processPortalRow row pn).fields.map Prod.fst ∧
          (((row.filterMap (fun kv => if kv.1 = "recordId" ∨ kv.1 = "modId" then none
                else some (stripKey pn kv.1, kv.2))).map Prod.fst).Nodup →
            ∀ k v, (k, v) ∈ row → ¬(k = "recordId" ∨ k = "modId") →
              stripKey pn k ≠ "recordId" → stripKey pn k ≠ "modId" →
              objGet (_processPortalRow row pn).fields (stripKey pn k) = some v)) ∧
      List.Forall₂ (fun (o : RawDataRecord) (rec : DataRecord) =>
          rec.recordId = o.recordId ∧ rec.modId = o.modId ∧
            (((o.portalData.getD []).map Prod.fst).Nodup →
              (∀ pn rows, objGet (o.portalData.getD []) pn = some rows →
                pn ≠ "recordId" → pn ≠ "modId" →
                objGet rec.fields pn
                  = some (RecValue.portal (rows.map (fun row => _processPortalRow row pn)))) ∧
              (∀ k, k ∉ (o.portalData.getD []).map Prod.fst →
                k ≠ "recordId" → k ≠ "modId" →
                objGet rec.fields k = (objGet o.fieldData k).map RecValue.field)))
        (resp.data.getD []) (toRecords resp).records := by
  refine ⟨rfl, rfl, ?_, ?_⟩
  · -- portal-row cleaning
    intro row pn
    refine ⟨rfl, rfl, ?_, ?_, ?_⟩
    · exact not_mem_keys_filter _ (fun a => a != "recordId" && a != "modId") "recordId"
        (by decide)
    · exact not_mem_keys_filter _ (fun a => a != "recordId" && a != "modId") "modId"
        (by decide)
    · intro hnd k v hkv hskip h1 h2
      have hq : ((stripKey pn k != "recordId") && (stripKey pn k != "modId")) = true := by
        simp [bne_iff_ne, h1, h2]
      show objGet (((row.foldl (fun acc2 kv => if kv.1 = "recordId" ∨ kv.1 = "modId" then acc2
          else objSet acc2 (stripKey pn kv.1) kv.2) [])).filter
            (fun kv => kv.1 != "recordId" && kv.1 != "modId")) (stripKey pn k) = some v
      rw [objGet_filter_keys (fun a => a != "recordId" && a != "modId") _ _ hq,
        foldl_if_objSet_eq pn row []]
      refine objGet_foldl_objSet_mem _ [] _ _ hnd ?_
      exact List.mem_filterMap.mpr ⟨(k, v), hkv, by simp [hskip]⟩
  · -- per-record flattening
    show List.Forall₂ _ (resp.data.getD []) ((resp.data.getD []).map _)
    refine forall₂_map_self _ _ (resp.data.getD []) ?_
    intro o _
    refine ⟨rfl, rfl, ?_⟩
    intro hnd
    constructor
    · intro pn rows hget hp1 hp2
      have hq : ((pn != "recordId") && (pn != "modId")) = true := by
        simp [bne_iff_ne, hp1, hp2]
      show objGet ((((o.portalData.getD []).map (fun pr =>
          (pr.1, RecValue.portal (pr.2.map (fun row => _processPortalRow row pr.1))))).foldl
            (fun acc2 kv => objSet acc2 kv.1 kv.2)
            (o.fieldData.map (fun kv => (kv.1, RecValue.field kv.2)))).filter
              (fun kv => kv.1 != "recordId" && kv.1 != "modId")) pn = _
      rw [objGet_filter_keys (fun a => a != "recordId" && a != "modId") _ _ hq]
      refine objGet_foldl_objSet_mem _ _ _ _ ?_ ?_
      · have : ((o.portalData.getD []).map (fun pr =>
            (pr.1, RecValue.portal (pr.2.map (fun row => _processPortalRow row pr.1))))).map
              Prod.fst = (o.portalData.getD []).map Prod.fst := by
          simp [List.map_map, Function.comp]
        rw [this]
        exact hnd
      · have hmem : (pn, rows) ∈ o.portalData.getD [] :=
          mem_of_objGet_eq_some _ _ _ hget
        have := List.mem_map_of_mem (fun pr : String × List FieldMap =>
          (pr.1, RecValue.portal (pr.2.map (fun row => _processPortalRow row pr.1)))) hmem
        simpa using this
    · intro k hk h1 h2
      have hq : ((k != "recordId") && (k != "modId")) = true := by
        simp [bne_iff_ne, h1, h2]
      show objGet ((((o.portalData.getD []).map (fun pr =>
          (pr.1, RecValue.portal (pr.2.map (fun row => _processPortalRow row pr.1))))).foldl
            (fun acc2 kv => objSet acc2 kv.1 kv.2)
            (o.fieldData.map (fun kv => (kv.1, RecValue.field kv.2)))).filter
              (fun kv => kv.1 != "recordId" && kv.1 != "modId")) k = _
      rw [objGet_filter_keys (fun a => a != "recordId" && a != "modId") _ _ hq]
      rw [objGet_foldl_objSet_not_mem]
      · exact objGet_map_value RecValue.field o.fieldData k
      · have : ((o.portalData.getD []).map (fun pr =>
            (pr.1, RecValue.portal (pr.2.map (fun row => _processPortalRow row pr.1))))).map
              Prod.fst = (o.portalData.getD []).map Prod.fst := by
          simp [List.map_map, Function.comp]
        rw [this]
        exact hk

/-- C7 witness: the spec example — one record with field `a = 1` and one
portal `P` whose row key `P::a` is stripped to `a`, with the identities kept
out of the enumerable fields. -/
theorem claimC7_toRecords_flattening_witness :
    (toRecords exampleReadResponse).foundCount = 1 ∧
      (toRecords exampleReadResponse).totalRecordCount = 7 ∧
      objGet (_processPortalRow examplePortalRow "P").fields (stripKey "P" "P::a")
        = some (FieldValue.num 2) ∧
      (_processPortalRow examplePortalRow "P").recordId = some (FieldValue.str "9") ∧
      "recordId" ∉ (_processPortalRow examplePortalRow "P").fields.map Prod.fst := by
  have h := claimC7_toRecords_flattening exampleReadResponse
  have hrow := h.2.2.1 examplePortalRow "P"
  exact ⟨h.1, h.2.1,
    hrow.2.2.2.2 (by decide) "P::a" (FieldValue.num 2) (by decide) (by decide)
      (by decide) (by decide),
    hrow.1, hrow.2.2.1⟩

end FmPromise
